import Mathlib

/-!
Verification of the download orchestration core of a YouTube downloader.

The development shallowly embeds the Python sources:

* `downloader.py` — the orchestrator `download_video`, the two strategy
  adapters `_download_with_pytube` / `_download_with_ytdlp`, the filename
  templating `_determine_template`, and the progress plumbing;
* `gui.py` — the `WorkerControl` pause/cancel control object.

External collaborators (pytube, yt-dlp, the filesystem, Python's
`pathlib`/`str` primitives and `tempfile.TemporaryDirectory`) are modelled
at their interface boundary: adapter executions become abstract outcomes,
native progress events become explicit event lists, and filesystem contents
become explicit lists of paths threaded through the functions.
-/

/-! ## Orchestrator (`downloader.py`, `download_video`)

An adapter invocation is abstracted by its outcome: it returns a path,
raises `DownloadCancelled`, or raises some other exception carrying a
message (`str(exc)`).  `download_video` itself either returns a path,
re-raises `DownloadCancelled`, or raises `DownloadError msg`.  Alongside
the result we record the trace of adapter attempts, in order. -/

/-- Outcome of one adapter invocation: returned a path, raised
`DownloadCancelled`, or raised any other exception with message `msg`. -/
inductive AdapterOutcome where
  | success (path : String)
  | cancelled
  | err (msg : String)
deriving DecidableEq, Repr

/-- Result of `download_video`: returned a path, re-raised
`DownloadCancelled`, or raised `DownloadError msg`. -/
inductive DlResult where
  | ok (path : String)
  | cancelled
  | error (msg : String)
deriving DecidableEq, Repr

/-- Identifier of a strategy adapter, used in the attempt trace. -/
inductive AdapterId where
  | pytube
  | ytdlp
deriving DecidableEq, Repr

/-- Python truthiness of the `cookies : str | None` parameter:
`bool(cookies)` is true exactly for a non-empty string. -/
def cookiesTruthy : Option String → Bool
  | none => false
  | some s => !(s == "")

/-- The pytube-then-ytdlp part of `download_video` (lines 137-165 of
`downloader.py`): run pytube; on `DownloadCancelled` re-raise; on any other
exception fall back to yt-dlp; if the fallback raises a non-cancelled
exception, raise `DownloadError` with the fallback's message. -/
def run_pytube_phase (tracePrefix : List AdapterId)
    (pytubeRun ytdlpFallback : AdapterOutcome) : DlResult × List AdapterId :=
  match pytubeRun with
  | .success p => (.ok p, tracePrefix ++ [.pytube])
  | .cancelled => (.cancelled, tracePrefix ++ [.pytube])
  | .err _ =>
    match ytdlpFallback with
    | .success p => (.ok p, tracePrefix ++ [.pytube, .ytdlp])
    | .cancelled => (.cancelled, tracePrefix ++ [.pytube, .ytdlp])
    | .err m2 => (.error m2, tracePrefix ++ [.pytube, .ytdlp])

/-- Embedding of `download_video` (lines 107-165 of `downloader.py`).
`prefer_ytdlp = audio_only or bool(cookies)`; when it holds yt-dlp runs
first, `DownloadCancelled` is re-raised, and any other exception is turned
into `DownloadError` when `audio_only or cookies` holds (the unreachable
fall-through to pytube is kept for faithfulness).  Otherwise pytube runs
first with yt-dlp as fallback.  `ytdlpFirst`, `pytubeRun` and
`ytdlpFallback` are the outcomes of the corresponding adapter invocations;
the second component of the result is the trace of attempts. -/
def download_video (audio_only : Bool) (cookies : Option String)
    (ytdlpFirst pytubeRun ytdlpFallback : AdapterOutcome) :
    DlResult × List AdapterId :=
  let prefer_ytdlp := audio_only || cookiesTruthy cookies
  if prefer_ytdlp then
    match ytdlpFirst with
    | .success p => (.ok p, [.ytdlp])
    | .cancelled => (.cancelled, [.ytdlp])
    | .err m =>
      if audio_only || cookiesTruthy cookies then (.error m, [.ytdlp])
      else run_pytube_phase [.ytdlp] pytubeRun ytdlpFallback
  else
    run_pytube_phase [] pytubeRun ytdlpFallback

/-! ## WorkerControl (`gui.py`, lines 105-135)

`WorkerControl` holds two `threading.Event`s: `_resume_event` (set
initially; cleared = paused) and `_cancel_event` (unset initially).  The
state is the pair of their `is_set()` values. -/

/-- State of `WorkerControl`: the `is_set()` values of its two events. -/
structure WorkerControl where
  resumeEvent : Bool
  cancelEvent : Bool
deriving DecidableEq, Repr

/-- Freshly constructed `WorkerControl`: `_resume_event.set()` has been
called, `_cancel_event` is unset. -/
def WorkerControl.init : WorkerControl := { resumeEvent := true, cancelEvent := false }

/-- `pause()`: clears `_resume_event`. -/
def WorkerControl.pause (c : WorkerControl) : WorkerControl :=
  { c with resumeEvent := false }

/-- `resume()`: sets `_resume_event`. -/
def WorkerControl.resume (c : WorkerControl) : WorkerControl :=
  { c with resumeEvent := true }

/-- `cancel()`: sets `_cancel_event` and sets `_resume_event`. -/
def WorkerControl.cancel (c : WorkerControl) : WorkerControl :=
  { c with cancelEvent := true, resumeEvent := true }

/-- `is_paused()`: true when `_resume_event` is not set. -/
def WorkerControl.is_paused (c : WorkerControl) : Bool := !c.resumeEvent

/-- `raise_if_cancelled()`: returns `true` when it raises
`DownloadCancelled`, i.e. exactly when `_cancel_event` is set. -/
def WorkerControl.raise_if_cancelled (c : WorkerControl) : Bool := c.cancelEvent

/-- One controller operation on a `WorkerControl`. -/
inductive ControlOp where
  | pauseOp
  | resumeOp
  | cancelOp
deriving DecidableEq, Repr

/-- Apply one controller operation. -/
def applyOp : ControlOp → WorkerControl → WorkerControl
  | .pauseOp, c => c.pause
  | .resumeOp, c => c.resume
  | .cancelOp, c => c.cancel

/-- Apply a sequence of controller operations, oldest first. -/
def runOps (ops : List ControlOp) (c : WorkerControl) : WorkerControl :=
  ops.foldl (fun st o => applyOp o st) c

/-- No controller operation clears `_cancel_event`. -/
theorem cancelEvent_applyOp (o : ControlOp) (c : WorkerControl)
    (h : c.cancelEvent = true) : (applyOp o c).cancelEvent = true := by
  cases o <;>
    simp [applyOp, WorkerControl.pause, WorkerControl.resume, WorkerControl.cancel, h]

/-- No sequence of controller operations clears `_cancel_event`. -/
theorem cancelEvent_runOps (ops : List ControlOp) (c : WorkerControl)
    (h : c.cancelEvent = true) : (runOps ops c).cancelEvent = true := by
  induction ops generalizing c with
  | nil => exact h
  | cons o rest ih =>
    simpa [runOps] using ih (applyOp o c) (cancelEvent_applyOp o c h)

/-- One iteration decision of the `wait_if_paused` polling loop. -/
inductive WaitStep where
  | returns
  | raisesCancelled
  | sleeps
deriving DecidableEq, Repr

/-- Decision taken by one iteration of `wait_if_paused` at state `c`: the
loop condition reads `_resume_event` (set means the loop exits and the call
returns), then `raise_if_cancelled()` runs, and only then does the loop
sleep for one polling interval. -/
def waitStepOf (c : WorkerControl) : WaitStep :=
  if c.resumeEvent then .returns
  else if c.cancelEvent then .raisesCancelled
  else .sleeps

/-- Fuel-bounded unrolling of the `wait_if_paused` loop over a fixed
control state (the state only changes from another thread): `sleeps` means
the loop is still blocked when the fuel runs out. -/
def waitLoop : Nat → WorkerControl → WaitStep
  | 0, _ => .sleeps
  | fuel + 1, c =>
    match waitStepOf c with
    | .returns => .returns
    | .raisesCancelled => .raisesCancelled
    | .sleeps => waitLoop fuel c

/-! ## Claims C1 - C5 -/

/-- C1: for every request with `audio_only` or non-empty cookies, the
orchestrator attempts yt-dlp first, and when that invocation raises a
non-cancelled exception no pytube attempt occurs: `download_video` raises
`DownloadError` with that message directly, with an attempt trace of
exactly one yt-dlp attempt. -/
theorem download_video_fallback_first (ao : Bool) (cookies : Option String)
    (m : String) (rp r2 : AdapterOutcome)
    (h : ao = true ∨ cookiesTruthy cookies = true) :
    download_video ao cookies (.err m) rp r2 = (.error m, [.ytdlp]) ∧
    ∀ r1, ((download_video ao cookies r1 rp r2).2).head? = some .ytdlp := by
  have hb : (ao || cookiesTruthy cookies) = true := by
    rcases h with h | h <;> simp [h]
  refine ⟨?_, ?_⟩
  · simp [download_video, hb]
  · intro r1
    cases r1 <;> simp [download_video, hb]

/-- C1 witness: concrete instance with `audio_only = true`. -/
theorem download_video_fallback_first_witness :
    download_video true none (.err "boom") (.success "p") (.success "q")
      = (.error "boom", [.ytdlp]) :=
  (download_video_fallback_first true none "boom" (.success "p") (.success "q")
    (Or.inl rfl)).1

/-- C2: for every request with video mode and no (truthy) cookies, pytube
is attempted first; when it raises a non-cancelled exception yt-dlp is
attempted next; and when the fallback also raises a non-cancelled
exception, `download_video` raises `DownloadError` carrying the fallback's
message `m2`, not pytube's `m1`. -/
theorem download_video_video_mode (cookies : Option String) (m1 m2 : String)
    (r1 : AdapterOutcome) (h : cookiesTruthy cookies = false) :
    download_video false cookies r1 (.err m1) (.err m2)
      = (.error m2, [.pytube, .ytdlp]) ∧
    ∀ rp r2, ((download_video false cookies r1 rp r2).2).head? = some .pytube := by
  refine ⟨?_, ?_⟩
  · simp [download_video, h, run_pytube_phase]
  · intro rp r2
    cases rp <;> cases r2 <;> simp [download_video, h, run_pytube_phase]

/-- C2 witness: concrete instance with distinct adapter messages. -/
theorem download_video_video_mode_witness :
    download_video false none (.success "unused") (.err "pytube msg") (.err "ytdlp msg")
      = (.error "ytdlp msg", [.pytube, .ytdlp]) :=
  (download_video_video_mode none "pytube msg" "ytdlp msg" (.success "unused") rfl).1

/-- C3: a `DownloadCancelled` raised by any adapter invocation propagates
out of `download_video` unchanged with no further adapter attempt, and
every `DownloadError` raised by `download_video` carries the message of a
non-cancelled exception of one of the attempted adapter invocations. -/
theorem download_video_cancelled_propagation (ao : Bool)
    (cookies : Option String) (r1 rp r2 : AdapterOutcome) (m1 : String) :
    ((ao || cookiesTruthy cookies) = true →
      download_video ao cookies .cancelled rp r2 = (.cancelled, [.ytdlp])) ∧
    ((ao || cookiesTruthy cookies) = false →
      download_video ao cookies r1 .cancelled r2 = (.cancelled, [.pytube])) ∧
    ((ao || cookiesTruthy cookies) = false →
      download_video ao cookies r1 (.err m1) .cancelled
        = (.cancelled, [.pytube, .ytdlp])) ∧
    (∀ m, (download_video ao cookies r1 rp r2).1 = .error m →
      (r1 = .err m ∧ (ao || cookiesTruthy cookies) = true) ∨ r2 = .err m) ∧
    ((download_video ao cookies r1 rp r2).1 = .cancelled →
      r1 = .cancelled ∨ rp = .cancelled ∨ r2 = .cancelled) := by
  cases hb : (ao || cookiesTruthy cookies) <;>
    cases r1 <;> cases rp <;> cases r2 <;>
      simp_all [download_video, run_pytube_phase]

/-- C3 witness: a cancellation inside the first yt-dlp attempt propagates
with no pytube attempt. -/
theorem download_video_cancelled_propagation_witness :
    download_video true none .cancelled (.success "p") (.success "q")
      = (.cancelled, [.ytdlp]) :=
  (download_video_cancelled_propagation true none .cancelled (.success "p")
    (.success "q") "m").1 rfl

/-- C4: `_cancel_event` starts unset and is monotonic (no operation clears
it; `pause`, `resume` and `cancel` are idempotent), so after `cancel()`
every later `raise_if_cancelled()` raises `DownloadCancelled` whatever
pause/resume/cancel operations happened in between, and `cancel()` clears
the paused state. -/
theorem workerControl_cancel_monotonic (c : WorkerControl)
    (ops : List ControlOp) (h : c.cancelEvent = true) :
    WorkerControl.init.cancelEvent = false ∧
    (runOps ops c).cancelEvent = true ∧
    (∀ (o : ControlOp) (c' : WorkerControl),
      applyOp o (applyOp o c') = applyOp o c') ∧
    (∀ c' : WorkerControl, (runOps ops c'.cancel).raise_if_cancelled = true) ∧
    (∀ c' : WorkerControl, c'.cancel.is_paused = false) := by
  refine ⟨rfl, cancelEvent_runOps ops c h, ?_, ?_, ?_⟩
  · intro o c'
    cases o <;>
      simp [applyOp, WorkerControl.pause, WorkerControl.resume, WorkerControl.cancel]
  · intro c'
    exact cancelEvent_runOps ops c'.cancel (by simp [WorkerControl.cancel])
  · intro c'
    simp [WorkerControl.cancel, WorkerControl.is_paused]

/-- C4 witness: after `cancel()` followed by `pause()` and `resume()`,
`raise_if_cancelled()` still raises. -/
theorem workerControl_cancel_monotonic_witness :
    (runOps [ControlOp.pauseOp, ControlOp.resumeOp]
      WorkerControl.init.cancel).raise_if_cancelled = true :=
  (workerControl_cancel_monotonic ⟨true, true⟩
    [ControlOp.pauseOp, ControlOp.resumeOp] rfl).2.2.2.1 WorkerControl.init

/-- C5: `wait_if_paused` does not hang after cancellation: at any state
reached by `cancel()` the next loop check returns immediately (because
`cancel()` sets the resume event), and at any state with the cancel event
set a loop iteration never sleeps — it returns or raises
`DownloadCancelled` — so the fuelled loop unblocks within one polling
interval. -/
theorem workerControl_wait_unblocks (c : WorkerControl) (fuel : Nat)
    (h : c.cancelEvent = true) :
    waitStepOf c.cancel = .returns ∧
    waitStepOf c ≠ .sleeps ∧
    waitLoop (fuel + 1) c ≠ .sleeps := by
  have hstep : waitStepOf c ≠ .sleeps := by
    unfold waitStepOf
    cases hr : c.resumeEvent <;> simp [h]
  refine ⟨by simp [waitStepOf, WorkerControl.cancel], hstep, ?_⟩
  unfold waitLoop
  cases hs : waitStepOf c <;> simp_all

/-- C5 witness: cancelling a paused control unblocks the wait loop in one
step. -/
theorem workerControl_wait_unblocks_witness :
    waitStepOf (WorkerControl.init.pause.cancel) = .returns :=
  (workerControl_wait_unblocks WorkerControl.init.pause.cancel 0
    (by simp [WorkerControl.pause, WorkerControl.cancel])).1

/-! ## Python string and path primitives

The adapter code uses `pathlib.Path` operations (`name`, `suffix`,
`with_suffix`), `str.strip`, `str.lstrip(".")` and the `in` operator.
They are modelled over the character list underlying a `String`, following
CPython's definitions. -/

/-- Final path component (`pathlib.PurePath.name` for a relative path
without drive or trailing-slash normalization): the characters after the
last `/`. -/
def pyNameChars (p : List Char) : List Char :=
  ((p.reverse).takeWhile (fun c => c ≠ '/')).reverse

/-- Directory part of a path, everything up to and including the last `/`:
the complement of `pyNameChars`. -/
def pyDirChars (p : List Char) : List Char :=
  p.take (p.length - (pyNameChars p).length)

/-- Index of the last `.` in a name (`str.rfind(".")`), `none` when there
is no dot. -/
def rfindDot (name : List Char) : Option Nat :=
  match (name.reverse).findIdx? (fun c => c = '.') with
  | some j => some (name.length - 1 - j)
  | none => none

/-- CPython's `PurePath.suffix`: with `i = name.rfind(".")`, the suffix is
`name[i:]` when `0 < i < len(name) - 1` and empty otherwise. -/
def pySuffixChars (p : List Char) : List Char :=
  match rfindDot (pyNameChars p) with
  | some i =>
    if 0 < i ∧ i < (pyNameChars p).length - 1 then (pyNameChars p).drop i
    else []
  | none => []

/-- CPython's `PurePath.with_suffix(suffix)` for a valid non-empty
`suffix`: drop the old suffix (when present) from the name and append the
new one, keeping the directory part. -/
def pyWithSuffixChars (p suffix : List Char) : List Char :=
  pyDirChars p ++
    (if pySuffixChars p = [] then pyNameChars p ++ suffix
     else (pyNameChars p).take ((pyNameChars p).length - (pySuffixChars p).length)
       ++ suffix)

/-- String wrapper for `pyNameChars`. -/
def pyName (s : String) : String := ⟨pyNameChars s.data⟩

/-- String wrapper for `pySuffixChars`. -/
def pySuffix (s : String) : String := ⟨pySuffixChars s.data⟩

/-- String wrapper for `pyWithSuffixChars`. -/
def pyWithSuffix (s suffix : String) : String :=
  ⟨pyWithSuffixChars s.data suffix.data⟩

/-- Python whitespace for `str.strip()` (the ASCII cases). -/
def isPyWS (c : Char) : Bool :=
  c = ' ' || c = '\t' || c = '\n' || c = '\r' || c = '\x0b' || c = '\x0c'

/-- Python `str.strip()`: drop leading and trailing whitespace. -/
def stripPy (s : String) : String :=
  ⟨((s.data.dropWhile isPyWS).reverse.dropWhile isPyWS).reverse⟩

/-! ## Filename templating (`downloader.py`, `_determine_template`) -/

/-- Embedding of `_determine_template` (lines 340-349 of `downloader.py`):
returns the yt-dlp output template and the expected final extension.  The
`if filename:` guard is a Python truthiness test, so both `None` and the
empty string fall through to the remote-title template.  A truthy custom
filename with an extension is forced to `.mp3` in audio mode and kept
verbatim otherwise; one without an extension gets the `%(ext)s`
placeholder appended to its final component. -/
def _determine_template (filename : Option String) (audio_only : Bool) :
    String × Option String :=
  let ext : Option String := if audio_only then some "mp3" else none
  match filename with
  | some f =>
    if f = "" then ("%(title)s.%(ext)s", ext)
    else if pySuffix f ≠ "" then
      if audio_only then (pyWithSuffix f ".mp3", some "mp3")
      else (f, some ⟨(pySuffix f).data.dropWhile (fun c => c = '.')⟩)
    else (pyName f ++ ".%(ext)s", ext)
  | none => ("%(title)s.%(ext)s", ext)

/-- A list without `/` is its own final path component. -/
theorem pyNameChars_of_noSlash (p : List Char) (h : '/' ∉ p) :
    pyNameChars p = p := by
  unfold pyNameChars
  rw [List.takeWhile_eq_self_iff.mpr, List.reverse_reverse]
  intro c hc
  rw [List.mem_reverse] at hc
  simp only [decide_eq_true_eq]
  rintro rfl
  exact h hc

/-- The last dot of `ys ++ ".mp3"` is the dot of `".mp3"`. -/
theorem rfindDot_append_mp3 (ys : List Char) :
    rfindDot (ys ++ ['.', 'm', 'p', '3']) = some ys.length := by
  have hidx : List.findIdx? (fun c => c = '.') ((ys ++ ['.', 'm', 'p', '3']).reverse)
      = some 3 := by
    rw [List.reverse_append]
    have h1 : (['.', 'm', 'p', '3'] : List Char).reverse = ['3', 'p', 'm', '.'] := rfl
    rw [h1, List.cons_append, List.cons_append, List.cons_append, List.cons_append,
      List.findIdx?_cons, if_neg (by decide), List.findIdx?_cons, if_neg (by decide),
      List.findIdx?_cons, if_neg (by decide), List.findIdx?_cons, if_pos (by decide)]
  unfold rfindDot
  rw [hidx]
  show some ((ys ++ ['.', 'm', 'p', '3']).length - 1 - 3) = some ys.length
  congr 1
  rw [List.length_append, List.length_cons, List.length_cons, List.length_cons,
    List.length_cons, List.length_nil]
  omega

/-- Appending `".mp3"` to a nonempty slash-free name produces a name whose
`suffix` is exactly `".mp3"`. -/
theorem pySuffixChars_append_mp3 (ys : List Char) (hy : 0 < ys.length)
    (hns : '/' ∉ ys) :
    pySuffixChars (ys ++ ['.', 'm', 'p', '3']) = ['.', 'm', 'p', '3'] := by
  have hname : pyNameChars (ys ++ ['.', 'm', 'p', '3']) = ys ++ ['.', 'm', 'p', '3'] := by
    refine pyNameChars_of_noSlash _ (fun hm => ?_)
    rcases List.mem_append.mp hm with h | h
    · exact hns h
    · simp at h
  have hcond : 0 < ys.length ∧ ys.length < (ys ++ ['.', 'm', 'p', '3']).length - 1 := by
    rw [List.length_append, List.length_cons, List.length_cons, List.length_cons,
      List.length_cons, List.length_nil]
    exact ⟨hy, by omega⟩
  unfold pySuffixChars
  rw [hname, rfindDot_append_mp3]
  show (if 0 < ys.length ∧ ys.length < (ys ++ ['.', 'm', 'p', '3']).length - 1
    then (ys ++ ['.', 'm', 'p', '3']).drop ys.length else []) = ['.', 'm', 'p', '3']
  rw [if_pos hcond, List.drop_left]

/-- Forcing the suffix: for a slash-free filename that has an extension,
`with_suffix(".mp3")` yields a filename whose `suffix` is `".mp3"`. -/
theorem pySuffix_pyWithSuffix_mp3 (f : String) (hf : pySuffix f ≠ "")
    (hs : '/' ∉ f.data) : pySuffix (pyWithSuffix f ".mp3") = ".mp3" := by
  have hname : pyNameChars f.data = f.data := pyNameChars_of_noSlash f.data hs
  have hsc : pySuffixChars f.data ≠ [] := by
    intro hnil
    apply hf
    unfold pySuffix
    rw [hnil]
  rcases hr : rfindDot f.data with _ | i
  · exact absurd (by unfold pySuffixChars; rw [hname, hr]) hsc
  have hcond : 0 < i ∧ i < f.data.length - 1 := by
    by_contra hc
    exact hsc (by unfold pySuffixChars; rw [hname, hr]; exact if_neg hc)
  have hold : pySuffixChars f.data = f.data.drop i := by
    unfold pySuffixChars
    rw [hname, hr]
    exact if_pos hcond
  have hile : i ≤ f.data.length := by omega
  have hmp3 : (".mp3" : String).data = ['.', 'm', 'p', '3'] := rfl
  have hnew : (pyWithSuffix f ".mp3").data
      = f.data.take i ++ ['.', 'm', 'p', '3'] := by
    show pyWithSuffixChars f.data (".mp3").data = f.data.take i ++ ['.', 'm', 'p', '3']
    unfold pyWithSuffixChars pyDirChars
    rw [hmp3, hname, hold, if_neg (by rw [← hold]; exact hsc)]
    simp only [Nat.sub_self, List.take_zero, List.nil_append, List.length_drop]
    congr 2
    omega
  have htklen : (f.data.take i).length = i := by
    rw [List.length_take]
    omega
  unfold pySuffix
  rw [hnew, pySuffixChars_append_mp3 (f.data.take i) (by rw [htklen]; omega)
    (fun hm => hs (List.take_subset i f.data hm))]

/-- C8: filename templating in the yt-dlp adapter.  A custom filename with
an extension in audio mode resolves with its extension forced to `.mp3`
whatever extension was typed; a custom filename without an extension gets
the adapter's natural extension appended as the `%(ext)s` placeholder; and
with no custom filename the remote-title template is used. -/
theorem determine_template_c8 (f g : String) (ao : Bool)
    (hf : pySuffix f ≠ "") (hs : '/' ∉ f.data) (hg : pySuffix g = "")
    (hg0 : g ≠ "") :
    _determine_template (some f) true = (pyWithSuffix f ".mp3", some "mp3") ∧
    pySuffix (pyWithSuffix f ".mp3") = ".mp3" ∧
    _determine_template (some g) ao
      = (pyName g ++ ".%(ext)s", if ao then some "mp3" else none) ∧
    _determine_template none ao
      = ("%(title)s.%(ext)s", if ao then some "mp3" else none) ∧
    _determine_template (some "") ao
      = ("%(title)s.%(ext)s", if ao then some "mp3" else none) := by
  have hf0 : f ≠ "" := by
    intro h
    apply hf
    rw [h]
    rfl
  refine ⟨?_, pySuffix_pyWithSuffix_mp3 f hf hs, ?_, ?_, ?_⟩
  · simp [_determine_template, hf0, hf]
  · simp [_determine_template, hg0, hg]
  · cases ao <;> rfl
  · cases ao <;> rfl

/-- C8 witness: `"clip.mkv"` in audio mode resolves to `"clip.mp3"`, whose
extension is `.mp3` and not `.mkv`; `"clip"` gets `.%(ext)s` appended; an
empty (falsy) filename uses the remote-title template. -/
theorem determine_template_c8_witness :
    _determine_template (some "clip.mkv") true = ("clip.mp3", some "mp3") ∧
    pySuffix "clip.mp3" = ".mp3" ∧
    _determine_template (some "clip") true = ("clip.%(ext)s", some "mp3") ∧
    _determine_template (some "") true = ("%(title)s.%(ext)s", some "mp3") := by
  have h := determine_template_c8 "clip.mkv" "clip" true (by decide) (by decide)
    (by decide) (by decide)
  have heq : pyWithSuffix "clip.mkv" ".mp3" = "clip.mp3" := by decide
  exact ⟨h.1.trans (by rw [heq]), heq ▸ h.2.1, h.2.2.1.trans (by decide),
    h.2.2.2.2⟩

/-! ## Cookie handling and temporary files (`downloader.py`,
`_download_with_ytdlp`, lines 300-314)

The adapter runs inside `tempfile.TemporaryDirectory`, which removes the
directory tree when the `with` block exits on every path (normal return,
exception, cancellation).  The cookies parameter is stripped; if the
stripped value still contains a newline or tab it is written to
`cookies.txt` inside the temporary directory and passed as `cookiefile`;
otherwise it is injected as a single `Cookie` request header.  The
filesystem is modelled as the list of existing paths. -/

/-- Cookie configuration computed by the adapter: the content written to
the temporary `cookies.txt` (if any) and the injected `Cookie` header
value (if any). -/
structure CookieSetup where
  cookiefileContent : Option String
  headerCookie : Option String
deriving DecidableEq, Repr

/-- Embedding of the `if cookies:` block: strip the cookies value; a
stripped value still containing `"\n"` or `"\t"` becomes cookie-jar file
content, any other non-empty value becomes the `Cookie` header. -/
def setup_cookies : Option String → CookieSetup
  | none => ⟨none, none⟩
  | some c =>
    if c = "" then ⟨none, none⟩
    else
      if (stripPy c).data.contains '\n' || (stripPy c).data.contains '\t' then
        ⟨some (stripPy c), none⟩
      else ⟨none, some (stripPy c)⟩

/-- Outcome of the `ydl.download` body: normal completion, an exception
with message `msg`, or `DownloadCancelled`. -/
inductive BodyOutcome where
  | completed
  | raisedErr (msg : String)
  | cancelledRun
deriving DecidableEq, Repr

/-- Name of the temporary directory created by
`tempfile.TemporaryDirectory(prefix="yt-dlp-frag-")` for one invocation. -/
def tempDirName : String := "/tmp/yt-dlp-frag-model"

/-- Path of the temporary cookie-jar file. -/
def cookieFilePath : String := tempDirName ++ "/cookies.txt"

/-- `p` lies inside directory `dir`. -/
def insideDir (dir p : String) : Bool :=
  p == dir || (dir ++ "/").data.isPrefixOf p.data

/-- Semantics of `with tempfile.TemporaryDirectory() as temp_dir`: the
directory is created, the body runs, and whatever the body's outcome the
directory tree is removed when the block exits. -/
def withTempDir (dir : String)
    (body : List String → BodyOutcome × List String) (fs : List String) :
    BodyOutcome × List String :=
  let r := body (dir :: fs)
  (r.1, r.2.filter (fun p => !(insideDir dir p)))

/-- File effects of `_download_with_ytdlp` around the download body: enter
the temporary directory scope, write the cookie-jar file when the stripped
cookies contain a newline or tab, then run the (abstract) `ydl.download`
body `dl` on the resulting filesystem. -/
def ytdlp_file_run (cookies : Option String)
    (dl : List String → BodyOutcome × List String) (fs : List String) :
    BodyOutcome × List String :=
  withTempDir tempDirName (fun fsIn =>
    match (setup_cookies cookies).cookiefileContent with
    | some _ => dl (cookieFilePath :: fsIn)
    | none => dl fsIn) fs

/-- One native yt-dlp progress-hook status dict: the `status` value plus
the fields the hook reads (`none` models an absent or `None` entry). -/
inductive YEvent where
  | downloading (downloadedBytes totalBytes totalBytesEstimate : Option Nat)
  | postprocessing
  | finished (filename : Option String)
  | otherStatus
deriving DecidableEq, Repr

/-- Python `a or b` on an optional number with default `b`: `None` and `0`
are falsy. -/
def pyOrNat (a : Option Nat) (b : Nat) : Nat :=
  match a with
  | some n => if n = 0 then b else n
  | none => b

/-- Sink events `(percent, message)` emitted by one `_hook` invocation
when a progress callback is supplied (lines 247-266 of `downloader.py`):
`downloading` emits the byte ratio (or `None` when no total is known),
`postprocessing` emits `None`, `finished` emits `(100, "")`, anything else
emits nothing. -/
def hookEmit : YEvent → List (Option ℚ × String)
  | .downloading dl tb tbe =>
    [(if pyOrNat tb (pyOrNat tbe 0) ≠ 0 then
        some ((pyOrNat dl 0 : ℚ) / (pyOrNat tb (pyOrNat tbe 0) : ℚ) * 100)
      else none, "")]
  | .postprocessing => [(none, "")]
  | .finished _ => [(some 100, "")]
  | .otherStatus => []

/-- All sink events emitted by the yt-dlp adapter for a native event
sequence. -/
def ytdlpEmitted (events : List YEvent) : List (Option ℚ × String) :=
  (events.map hookEmit).flatten

/-- Destination recorded by the `_hook` over a native event sequence:
every `finished` status with a truthy (non-empty) `filename` overwrites
`download_info["filepath"]` with the resolved path.  `resolvePath` models
`Path(...).resolve()`. -/
def downloadInfoOf (resolvePath : String → String) (events : List YEvent) :
    Option String :=
  events.foldl
    (fun acc e =>
      match e with
      | .finished (some f) => if f = "" then acc else some (resolvePath f)
      | _ => acc)
    none

/-- One native pytube chunk callback: the stream's `filesize`,
`filesize_approx` (after the `getattr` defaults) and the remaining byte
count. -/
structure PyChunkEvent where
  filesize : Option Nat
  filesizeApprox : Option Nat
  bytesRemaining : Nat
deriving DecidableEq, Repr

/-- Python `a or b` on two optional numbers (`None`/`0` falsy). -/
def pyOrOpt (a b : Option Nat) : Option Nat :=
  match a with
  | some n => if n = 0 then b else a
  | none => b

/-- Sink event emitted by the pytube per-chunk handler (lines 359-367 of
`downloader.py`). -/
def pyHandlerEmit (e : PyChunkEvent) : Option ℚ × String :=
  match pyOrOpt e.filesize e.filesizeApprox with
  | some n =>
    if n = 0 then (none, "")
    else (some (((n - e.bytesRemaining : Nat) : ℚ) / (n : ℚ) * 100), "")
  | none => (none, "")

/-- All sink events of a successful pytube run with a progress callback:
the per-chunk events followed by the adapter's final `(100.0, "")` call
(line 210 of `downloader.py`). -/
def pytubeEmitted (chunks : List PyChunkEvent) : List (Option ℚ × String) :=
  chunks.map pyHandlerEmit ++ [(some 100, "")]

/-- An append ending in a list with a known last element keeps it. -/
theorem getLast?_append_right {α : Type} (xs ys : List α) (a : α)
    (h : ys.getLast? = some a) : (xs ++ ys).getLast? = some a := by
  induction xs with
  | nil => simpa using h
  | cons x xs ih =>
    have hne : xs ++ ys ≠ [] := by
      intro hnil
      rcases List.append_eq_nil.mp hnil with ⟨-, h2⟩
      rw [h2] at h
      simp at h
    obtain ⟨c, t, hct⟩ := List.exists_cons_of_ne_nil hne
    rw [List.cons_append, hct, List.getLast?_cons_cons, ← hct, ih]

/-- The yt-dlp adapter's emitted events end with the `finished` emission
when the native sequence ends with a `finished` status. -/
theorem ytdlpEmitted_last (events : List YEvent) (fn : Option String)
    (h : events.getLast? = some (.finished fn)) :
    (ytdlpEmitted events).getLast? = some (some 100, "") := by
  induction events with
  | nil => simp at h
  | cons e rest ih =>
    cases rest with
    | nil =>
      simp only [List.getLast?_singleton, Option.some_inj] at h
      subst h
      simp [ytdlpEmitted, hookEmit]
    | cons b l =>
      rw [List.getLast?_cons_cons] at h
      show ((e :: b :: l).map hookEmit).flatten.getLast? = some (some 100, "")
      rw [List.map_cons, List.flatten_cons]
      exact getLast?_append_right _ _ _ (ih h)

/-- Finalization of `_download_with_ytdlp` (lines 324-337 of
`downloader.py`): fail when no destination was recorded (or an empty one —
Python truthiness), otherwise return the recorded path, renamed to the
expected audio extension when audio mode expects a different extension,
the file exists on disk and the rename succeeds (`pathOnDisk` and
`renameOk` model the filesystem). -/
def finalize_ytdlp (audio_only : Bool) (final_extension : Option String)
    (pathOnDisk renameOk : Bool) (info : Option String) :
    Except String String :=
  match info, final_extension with
  | none, _ => .error "yt-dlp completed without reporting a destination file."
  | some p, none =>
    if p = "" then .error "yt-dlp completed without reporting a destination file."
    else .ok p
  | some p, some ext =>
    if p = "" then .error "yt-dlp completed without reporting a destination file."
    else if audio_only && !(ext == "") && !(pySuffix p == "." ++ ext) then
      if pathOnDisk && renameOk then .ok (pyWithSuffix p ("." ++ ext))
      else .ok p
    else .ok p

/-- A recorded destination always comes from a `finished` event with a
truthy filename. -/
theorem downloadInfoOf_eq_some (resolvePath : String → String) :
    ∀ (events : List YEvent) (acc : Option String) (q : String),
      events.foldl
        (fun acc e =>
          match e with
          | .finished (some f) => if f = "" then acc else some (resolvePath f)
          | _ => acc)
        acc = some q →
      (∃ f, YEvent.finished (some f) ∈ events ∧ f ≠ "" ∧ q = resolvePath f) ∨
        acc = some q := by
  intro events
  induction events with
  | nil =>
    intro acc q h
    exact Or.inr h
  | cons e rest ih =>
    intro acc q h
    rw [List.foldl_cons] at h
    rcases ih _ q h with ⟨f, hmem, hne, hq⟩ | hacc
    · exact Or.inl ⟨f, List.mem_cons_of_mem e hmem, hne, hq⟩
    · cases e with
      | finished fn =>
        cases fn with
        | some f =>
          by_cases hf : f = ""
          · simp only [hf, if_pos rfl] at hacc
            exact Or.inr hacc
          · simp only [if_neg hf] at hacc
            refine Or.inl ⟨f, List.mem_cons_self _ _, hf, ?_⟩
            exact (Option.some_inj.mp hacc).symm
        | none => exact Or.inr hacc
      | downloading dl tb tbe => exact Or.inr hacc
      | postprocessing => exact Or.inr hacc
      | otherStatus => exact Or.inr hacc

/-- The property claimed of a successful run's sink events: the sequence
ends with a `(100, "")` event and that event occurs exactly once. -/
def endsWithExactlyOneTerminal (l : List (Option ℚ × String)) : Prop :=
  l.getLast? = some (some 100, "") ∧ l.count (some 100, "") = 1

/-- Native event sequence of a successful yt-dlp run whose final
`downloading` hook call already reports all bytes downloaded. -/
def c6Events : List YEvent :=
  [.downloading (some 50) (some 100) none,
   .downloading (some 100) (some 100) none,
   .finished (some "f.mp4")]

/-- C6 counterexample: a successful yt-dlp download (the destination is
recorded and finalization returns it) whose sink sequence is
`[(50, ""), (100, ""), (100, "")]` — the last downloading event at 100%
and the finished event both emit `(100, "")`, so the sequence does not end
with exactly one `(100, "")` event. -/
theorem progress_terminal_counterexample :
    downloadInfoOf id c6Events = some "f.mp4" ∧
    finalize_ytdlp false none true true (downloadInfoOf id c6Events)
      = .ok "f.mp4" ∧
    ytdlpEmitted c6Events = [(some 50, ""), (some 100, ""), (some 100, "")] ∧
    ¬ endsWithExactlyOneTerminal (ytdlpEmitted c6Events) := by
  have he : ytdlpEmitted c6Events
      = [(some 50, ""), (some 100, ""), (some 100, "")] := by
    simp only [ytdlpEmitted, c6Events, hookEmit, pyOrNat, List.map_cons,
      List.map_nil, List.flatten_cons, List.flatten_nil]
    norm_num
  refine ⟨rfl, rfl, he, ?_⟩
  intro hP
  have h2 := hP.2
  rw [he] at h2
  norm_num [List.count_cons] at h2

/-- C6 (amended): for every successful download with a progress callback
the sink sequence ends with a `(100, "")` event: any yt-dlp run whose
native events end with a `finished` status ends with the finished
handler's `(100, "")`, and a successful pytube run ends with the adapter's
final `(100.0, "")` call.  The terminal event need not be unique: a final
chunk or `downloading` event at 100% also emits `(100, "")`. -/
theorem progress_terminal_amended (events : List YEvent) (fn : Option String)
    (chunks : List PyChunkEvent)
    (h : events.getLast? = some (.finished fn)) :
    (ytdlpEmitted events).getLast? = some (some 100, "") ∧
    (pytubeEmitted chunks).getLast? = some (some 100, "") := by
  refine ⟨ytdlpEmitted_last events fn h, ?_⟩
  unfold pytubeEmitted
  exact getLast?_append_right _ _ _ rfl

/-- C6 witness: a one-event finished run and an empty chunk list. -/
theorem progress_terminal_amended_witness :
    (ytdlpEmitted [YEvent.finished (some "out.mp4")]).getLast?
      = some (some 100, "") ∧
    (pytubeEmitted []).getLast? = some (some 100, "") :=
  progress_terminal_amended [YEvent.finished (some "out.mp4")] (some "out.mp4")
    [] rfl

/-- C10: the yt-dlp adapter never returns a path it did not observe.  When
no `finished` event recorded a destination, finalization raises
`RuntimeError("yt-dlp completed without reporting a destination file.")`;
and every path it returns was recorded from a `finished` event with a
non-empty filename, either as resolved or renamed to the expected audio
extension. -/
theorem ytdlp_reported_path (resolvePath : String → String)
    (events : List YEvent) (ao : Bool) (fe : Option String)
    (pathOnDisk renameOk : Bool) :
    (downloadInfoOf resolvePath events = none →
      finalize_ytdlp ao fe pathOnDisk renameOk (downloadInfoOf resolvePath events)
        = .error "yt-dlp completed without reporting a destination file.") ∧
    (∀ p, finalize_ytdlp ao fe pathOnDisk renameOk (downloadInfoOf resolvePath events)
        = .ok p →
      ∃ f, YEvent.finished (some f) ∈ events ∧ f ≠ "" ∧
        (p = resolvePath f ∨
          ∃ ext, fe = some ext ∧ p = pyWithSuffix (resolvePath f) ("." ++ ext))) := by
  constructor
  · intro hnone
    rw [hnone]
    cases fe <;> rfl
  · intro p hok
    rcases hq : downloadInfoOf resolvePath events with _ | q
    · rw [hq] at hok
      cases fe <;> simp only [finalize_ytdlp, reduceCtorEq] at hok
    · rcases downloadInfoOf_eq_some resolvePath events none q hq with
        ⟨f, hmem, hne, hqf⟩ | habs
      · refine ⟨f, hmem, hne, ?_⟩
        rw [hq] at hok
        subst hqf
        cases fe with
        | none =>
          simp only [finalize_ytdlp] at hok
          by_cases hemp : resolvePath f = ""
          · rw [if_pos hemp] at hok
            simp only [reduceCtorEq] at hok
          · rw [if_neg hemp] at hok
            simp only [Except.ok.injEq] at hok
            exact Or.inl hok.symm
        | some ext =>
          simp only [finalize_ytdlp] at hok
          by_cases hemp : resolvePath f = ""
          · rw [if_pos hemp] at hok
            simp only [reduceCtorEq] at hok
          · rw [if_neg hemp] at hok
            by_cases hcnd :
              (ao && !(ext == "") && !(pySuffix (resolvePath f) == "." ++ ext)) = true
            · rw [if_pos hcnd] at hok
              by_cases hdisk : (pathOnDisk && renameOk) = true
              · rw [if_pos hdisk] at hok
                simp only [Except.ok.injEq] at hok
                exact Or.inr ⟨ext, rfl, hok.symm⟩
              · rw [if_neg hdisk] at hok
                simp only [Except.ok.injEq] at hok
                exact Or.inl hok.symm
            · rw [if_neg hcnd] at hok
              simp only [Except.ok.injEq] at hok
              exact Or.inl hok.symm
      · simp at habs

/-- C10 witness: a run with one finished event returns exactly the
recorded path. -/
theorem ytdlp_reported_path_witness :
    ∃ f, YEvent.finished (some f) ∈ [YEvent.finished (some "out.mp4")] ∧
      f ≠ "" ∧
      ("out.mp4" = id f ∨
        ∃ ext, (none : Option String) = some ext ∧
          "out.mp4" = pyWithSuffix (id f) ("." ++ ext)) :=
  (ytdlp_reported_path id [YEvent.finished (some "out.mp4")] false none
    true true).2 "out.mp4" rfl

/-! ## pytube stream selection (`downloader.py`,
`_download_with_pytube`, lines 191-200)

A pytube `Stream` is modelled by the attributes the selection reads:
`progressive` (audio+video combined), `subtype` (container, the
`file_extension` filter) and `res` (resolution string such as `"720p"`,
absent for audio-only streams).  `StreamQuery.filter` is list filtering;
`order_by("resolution")` drops streams without the attribute and sorts by
the integer embedded in the string (stable, ascending), `desc()` reverses
and `first()` takes the head. -/

/-- The pytube stream attributes used by video-mode selection. -/
structure MediaStream where
  progressive : Bool
  subtype : String
  res : Option String
deriving DecidableEq, Repr

/-- Integer value of the digits in a resolution string
(`int(re.sub("[^0-9]", "", s))`, e.g. `"720p" ↦ 720`). -/
def digitsVal (l : List Char) : Nat :=
  l.foldl (fun acc c => if c.isDigit then acc * 10 + (c.toNat - 48) else acc) 0

/-- Sort key used by `order_by("resolution")`. -/
def resKey (s : MediaStream) : Nat :=
  match s.res with
  | some r => digitsVal r.data
  | none => 0

/-- Comparison underlying the resolution sort. -/
def streamLe (a b : MediaStream) : Prop := resKey a ≤ resKey b

instance : DecidableRel streamLe := fun _ _ => Nat.decLe _ _

instance : IsTotal MediaStream streamLe := ⟨fun _ _ => Nat.le_total _ _⟩

instance : IsTrans MediaStream streamLe := ⟨fun _ _ _ => Nat.le_trans⟩

/-- The `filter(progressive=True, file_extension="mp4")` predicate. -/
def progressiveMp4 (s : MediaStream) : Bool :=
  s.progressive && s.subtype == "mp4"

/-- The `filter(res=resolution)` predicate. -/
def resMatches (r : String) (s : MediaStream) : Bool := s.res == some r

/-- Streams owning the `resolution` attribute (kept by `order_by`). -/
def hasRes (s : MediaStream) : Bool := s.res.isSome

/-- `order_by("resolution").desc()`: keep streams that have a resolution,
sort ascending by the numeric key (stable), then reverse. -/
def orderByResolutionDesc (l : List MediaStream) : List MediaStream :=
  (List.insertionSort streamLe (l.filter hasRes)).reverse

/-- Embedding of the video-mode stream selection (lines 191-200 of
`downloader.py`): restrict to progressive MP4 streams; with a resolution
constraint take the first exact match or fail naming the resolution; with
no constraint take the highest resolution or fail when no progressive MP4
stream exists. -/
def select_video_stream (streams : List MediaStream)
    (resolution : Option String) : Except String MediaStream :=
  match resolution with
  | some r =>
    match ((streams.filter progressiveMp4).filter (resMatches r)).head? with
    | some s => .ok s
    | none =>
      .error ("Resolution " ++ r ++ " not available. Use --resolution to pick another.")
  | none =>
    match (orderByResolutionDesc (streams.filter progressiveMp4)).head? with
    | some s => .ok s
    | none => .error "No progressive MP4 streams available for this video."

/-- The head of a list is a member. -/
theorem head?_mem_list {α : Type} (l : List α) (a : α) (h : l.head? = some a) :
    a ∈ l := by
  cases l with
  | nil => simp at h
  | cons b t =>
    simp only [List.head?_cons, Option.some_inj] at h
    exact h ▸ List.mem_cons_self b t

/-- The last element of a list is a member. -/
theorem getLast?_mem_list {α : Type} (l : List α) (a : α)
    (h : l.getLast? = some a) : a ∈ l := by
  induction l with
  | nil => simp at h
  | cons b t ih =>
    cases t with
    | nil =>
      simp only [List.getLast?_singleton, Option.some_inj] at h
      exact h ▸ List.mem_cons_self b []
    | cons c u =>
      rw [List.getLast?_cons_cons] at h
      exact List.mem_cons_of_mem b (ih h)

/-- In a list sorted ascending by `resKey`, the last element has the
greatest key. -/
theorem getLast?_max_of_sorted :
    ∀ (l : List MediaStream) (s : MediaStream), l.Sorted streamLe →
      l.getLast? = some s → ∀ t ∈ l, resKey t ≤ resKey s := by
  intro l
  induction l with
  | nil =>
    intro s _ hlast
    simp at hlast
  | cons a rest ih =>
    intro s hsort hlast t ht
    cases rest with
    | nil =>
      simp only [List.getLast?_singleton, Option.some_inj] at hlast
      rcases List.mem_singleton.mp ht with rfl
      rw [hlast]
    | cons b r =>
      rw [List.getLast?_cons_cons] at hlast
      have hpair := List.sorted_cons.mp hsort
      rcases List.mem_cons.mp ht with rfl | ht'
      · exact hpair.1 s (getLast?_mem_list (b :: r) s hlast)
      · exact ih s hpair.2 hlast t ht'

